import Mathlib

/-!
Verification of the batched transaction dispatch engine of
`tools/tx_spammer/tx_spammer.py` (Taiko-Preconf-AVS), via a shallow
embedding of its data model and control flow.

The embedding follows the Python source:
* `gasLimitOfEstimate` models `int(estimated_gas * 1.2)` exactly, including
  the IEEE-754 binary64 rounding of the literal `1.2` and of the product.
* `runBatch` models one iteration of the `while` loop of
  `spam_transactions` (fee reads, nonce read, tx construction, signing,
  concurrent dispatch).
* `spamLoopAux` / `spam_transactions` model the batching loop itself,
  with an explicit fuel argument (the loop is shown fuel-insensitive).
* `send_transaction` models the stand-alone function of the same name.
* `time_until_slot` models the module-level slot-wait computation.
* `mainFlow` models the module-level validation and effect order.
-/

/-! ### IEEE-754 binary64 model of `int(estimated_gas * 1.2)` -/

/-- Bit length of a natural number, with explicit fuel (exact for all
`n < 2 ^ fuel`). -/
def bitlenAux : Nat → Nat → Nat
  | 0, _ => 0
  | fuel + 1, n => if n = 0 then 0 else bitlenAux fuel (n / 2) + 1

/-- Bit length of a natural number below `2 ^ 128`. -/
def bitlen (n : Nat) : Nat := bitlenAux 128 n

/-- Round the nonnegative rational `num / den` to the nearest integer,
ties to even. -/
def roundNearEven (num den : Nat) : Nat :=
  if 2 * (num % den) > den then num / den + 1
  else if 2 * (num % den) < den then num / den
  else if num / den % 2 = 0 then num / den
  else num / den + 1

/-- Numerator over `2 ^ 52` of the IEEE-754 binary64 value of the literal
`1.2`: the significand of `1.2` rounded to 53 bits (nearest, ties to even). -/
def float12num : Nat := roundNearEven (6 * 2 ^ 52) 5

/-- Python semantics of `int(e * 1.2)`: the exact product of `e` with the
binary64 value of `1.2` is rounded to a binary64 (53-bit significand,
nearest, ties to even) and then truncated toward zero.
Models line 104 / line 140 of `tx_spammer.py`. -/
def gasLimitOfEstimate (e : Nat) : Nat :=
  if bitlen (e * float12num) ≤ 53 then
    e * float12num / 2 ^ 52
  else
    roundNearEven (e * float12num) (2 ^ (bitlen (e * float12num) - 53))
      * 2 ^ (bitlen (e * float12num) - 53) / 2 ^ 52

/-- The gas limit used by a run: the 1.2-buffered estimate on success, the
fixed fallback `40000` when gas estimation raises (`except` branch,
lines 105-107 and 141-143). -/
def runGasLimit (est : Option Nat) : Nat :=
  match est with
  | some e => gasLimitOfEstimate e
  | none => 40000

/-- The gas limit the spec's words prescribe: `estimate × 1.2, rounded up`
(least integer greater than or equal to `1.2 · e`), in exact integer
arithmetic.  Stated for comparison with `gasLimitOfEstimate`. -/
def gasLimitSpecCeil (e : Nat) : Nat := (6 * e + 4) / 5

/-! ### Data model -/

/-- Run configuration (validated CLI arguments and .env values). -/
structure Config where
  argBatchSize : Nat
  recipient : Nat
  amountWei : Nat
  privateKey : Nat
  sleepSecs : Nat

/-- An EIP-1559 transaction request dict (lines 114-123 / 160-169). -/
structure Tx where
  nonce : Nat
  toAddr : Nat
  value : Nat
  gas : Nat
  maxFeePerGas : Nat
  maxPriorityFeePerGas : Nat
  chainId : Nat
  txType : Nat
  deriving DecidableEq

/-- A signed raw transaction: the payload determined by the transaction
fields and the signing key. -/
structure SignedTx where
  tx : Tx
  signedBy : Nat
  deriving DecidableEq

/-- A snapshot of the chain RPC collaborator, as observed at one point in
time: what each consumed RPC method would answer. `estimateGas = none`
and `send _ = none` model the corresponding calls raising. -/
structure ChainView where
  estimateGas : Option Nat
  baseFeePerGas : Nat
  maxPriorityFee : Nat
  pendingNonce : Nat
  chainId : Nat
  send : SignedTx → Option Nat

/-- Labels of the chain RPC methods the engine consumes. -/
inductive RpcCall where
  | estimateGas
  | getBlockLatest
  | maxPriorityFee
  | getTransactionCount
  | chainIdCall
  | sendRawTransaction
  deriving DecidableEq

/-- Observable outcome of one iteration of the batch loop. -/
structure BatchRecord where
  baseFee : Nat
  prio : Nat
  maxFee : Nat
  pending : Nat
  gasLimit : Nat
  maxWorkers : Nat
  txs : List SignedTx
  results : List (Option Nat)
  calls : List RpcCall
  deriving DecidableEq

/-- Externally visible steps of the batching loop: a dispatched batch of a
given size, or the inter-batch `time.sleep`. -/
inductive Step where
  | batch (bc : Nat)
  | sleep
  deriving DecidableEq

/-! ### The batch loop -/

/-- Transaction construction for one batch (lines 158-169): transaction `i`
gets nonce `pending_nonce + i`; all share the batch's fee fields. -/
def buildTxs (cfg : Config) (chainId gasLimit pendingNonce maxFee prioFee bc : Nat) :
    List Tx :=
  (List.range bc).map fun i =>
    { nonce := pendingNonce + i
      toAddr := cfg.recipient
      value := cfg.amountWei
      gas := gasLimit
      maxFeePerGas := maxFee
      maxPriorityFeePerGas := prioFee
      chainId := chainId
      txType := 2 }

/-- Sequential signing of a batch (line 170, inside the construction loop);
an uncaught signing failure aborts the whole construction. -/
def signAll (signer : Nat → Tx → Option SignedTx) (key : Nat) :
    List Tx → Option (List SignedTx)
  | [] => some []
  | t :: ts =>
    match signer key t with
    | none => none
    | some s =>
      match signAll signer key ts with
      | none => none
      | some ss => some (s :: ss)

/-- The signer of the source: `w3.eth.account.sign_transaction(tx, private_key)`
on a well-formed request, which succeeds and pairs the request with the key. -/
def signOk (key : Nat) (t : Tx) : Option SignedTx := some ⟨t, key⟩

/-- RPC calls one loop iteration performs, in source order: fee reads,
the single pending-count read, one `chain_id` access per constructed
transaction, one `send_raw_transaction` per signed transaction. -/
def batchCalls (bc : Nat) : List RpcCall :=
  [RpcCall.getBlockLatest, RpcCall.maxPriorityFee, RpcCall.getTransactionCount]
    ++ List.replicate bc RpcCall.chainIdCall
    ++ List.replicate bc RpcCall.sendRawTransaction

/-- One iteration of the `while` loop of `spam_transactions`
(lines 147-192): read base fee and priority fee, derive `max_fee_per_gas`,
read the pending nonce once, construct and sign `bc` transactions, then
submit every signed transaction, capturing per-transaction failures
(`send_raw_tx` returns `none` on error), with `max_workers = bc`.
Returns `none` when signing raises (no submission happens). -/
def runBatch (cfg : Config) (signer : Nat → Tx → Option SignedTx)
    (ch : ChainView) (gasLimit bc : Nat) : Option BatchRecord :=
  let baseFee := ch.baseFeePerGas
  let prioFee := ch.maxPriorityFee
  let maxFee := baseFee * 2 + prioFee
  let pending := ch.pendingNonce
  let txs := buildTxs cfg ch.chainId gasLimit pending maxFee prioFee bc
  match signAll signer cfg.privateKey txs with
  | none => none
  | some stxs =>
    some
      { baseFee := baseFee
        prio := prioFee
        maxFee := maxFee
        pending := pending
        gasLimit := gasLimit
        maxWorkers := bc
        txs := stxs
        results := stxs.map ch.send
        calls := batchCalls bc }

/-- The record produced by a successfully signed loop iteration. -/
def batchRecordOf (cfg : Config) (ch : ChainView) (gasLimit bc : Nat) :
    BatchRecord :=
  let maxFee := ch.baseFeePerGas * 2 + ch.maxPriorityFee
  let stxs :=
    (buildTxs cfg ch.chainId gasLimit ch.pendingNonce maxFee ch.maxPriorityFee bc).map
      fun t => ⟨t, cfg.privateKey⟩
  { baseFee := ch.baseFeePerGas
    prio := ch.maxPriorityFee
    maxFee := maxFee
    pending := ch.pendingNonce
    gasLimit := gasLimit
    maxWorkers := bc
    txs := stxs
    results := stxs.map ch.send
    calls := batchCalls bc }

/-- The `while sent_count < count` loop of `spam_transactions`
(lines 145-196), with fuel.  `chain idx` is the chain state observed by
iteration `idx` (the per-batch fee and nonce reads are fresh reads).
Returns the batch records, the step trace (batches and inter-batch
sleeps), and whether an uncaught signing failure aborted the loop. -/
def spamLoopAux (cfg : Config) (signer : Nat → Tx → Option SignedTx)
    (chain : Nat → ChainView) (gasLimit bs count : Nat) :
    Nat → Nat → Nat → List BatchRecord × List Step × Bool
  | 0, _, _ => ([], [], false)
  | fuel + 1, sent, idx =>
    if sent < count then
      let bc := min bs (count - sent)
      match runBatch cfg signer (chain idx) gasLimit bc with
      | none => ([], [], true)
      | some r =>
        match spamLoopAux cfg signer chain gasLimit bs count fuel (sent + bc) (idx + 1) with
        | (recs, steps, ab) =>
          (r :: recs,
           Step.batch bc ::
             (if sent + bc < count then Step.sleep :: steps else steps),
           ab)
    else ([], [], false)

/-- The function `spam_transactions(count)` (lines 128-196): cap the batch size at
`min(args.batch_size, count)`, derive the gas limit once — before the
loop — from the chain state observed at call time (`chain 0`), then run
the batch loop. -/
def spam_transactions (cfg : Config) (signer : Nat → Tx → Option SignedTx)
    (chain : Nat → ChainView) (count : Nat) :
    List BatchRecord × List Step × Bool :=
  let batchSize := min cfg.argBatchSize count
  let gasLimit := runGasLimit (chain 0).estimateGas
  spamLoopAux cfg signer chain gasLimit batchSize count count 0 0

/-- The batch records of a run with the real (succeeding) signer. -/
def spamRecords (cfg : Config) (chain : Nat → ChainView) (count : Nat) :
    List BatchRecord :=
  (spam_transactions cfg signOk chain count).1

/-- The step trace of a run with the real (succeeding) signer. -/
def spamSteps (cfg : Config) (chain : Nat → ChainView) (count : Nat) :
    List Step :=
  (spam_transactions cfg signOk chain count).2.1

/-- Batch sizes appearing in a step trace. -/
def batchSizesOf (steps : List Step) : List Nat :=
  steps.filterMap fun s =>
    match s with
    | Step.batch bc => some bc
    | Step.sleep => none

/-- The stand-alone `send_transaction(nonce)` function (lines 97-126):
its own gas estimation with the same `except` fallback, fresh fee reads,
one transaction built, signed, and submitted (uncaught on failure). -/
def send_transaction (cfg : Config) (ch : ChainView) (nonce : Nat) :
    Tx × Option Nat :=
  let gasLimit := runGasLimit ch.estimateGas
  let maxFee := ch.baseFeePerGas * 2 + ch.maxPriorityFee
  let tx : Tx :=
    { nonce := nonce
      toAddr := cfg.recipient
      value := cfg.amountWei
      gas := gasLimit
      maxFeePerGas := maxFee
      maxPriorityFeePerGas := ch.maxPriorityFee
      chainId := ch.chainId
      txType := 2 }
  (tx, ch.send ⟨tx, cfg.privateKey⟩)

/-! ### Slot scheduling and module-level flow -/

/-- The slot-wait computation of the module-level scheduling loop
(lines 201-211), on integers.  Python `//` and `%` agree with Lean's
integer `/` and `%` here because every divisor is positive. -/
def time_until_slot (genesis current slot : Int) : Int :=
  let currentSlot := (current - genesis) / 12
  let currentEpochSlot := currentSlot % 32
  let timeSinceEpochStart := (current - genesis) % (32 * 12)
  let t0 := ((slot - currentEpochSlot) % 32) * 12 - timeSinceEpochStart % 12
  if t0 ≤ 0 then t0 + 32 * 12 else t0

/-- Environment variables read at startup (lines 54-60). -/
structure Env where
  privateKey : Option Nat
  recipientAddress : Option Nat

/-- Parsed CLI arguments relevant to the module-level flow. -/
structure Args where
  count : Nat
  slots : List Int
  beaconRpc : Option Nat

/-- Outward effects of the module-level flow, in order. -/
inductive Effect where
  | beaconFetch
  | web3Connect
  | slotWait (secs : Int)
  | spamRun (count : Nat)
  deriving DecidableEq

/-- Fatal startup errors of the module-level flow. -/
inductive MainError where
  | missingPrivateKey
  | missingRecipient
  | missingBeaconRpc
  | genesisFetchFailed
  | connectFailed
  deriving DecidableEq

/-- Effects of the `for slot in args.slots` loop (lines 199-217):
wait for each requested slot, then spam.  `times i` is the value of
`time.time()` read at the start of iteration `i`. -/
def slotEffects (genesis : Int) (count : Nat) (times : Nat → Int) :
    List Int → Nat → List Effect
  | [], _ => []
  | s :: rest, i =>
    Effect.slotWait (time_until_slot genesis (times i) s)
      :: Effect.spamRun count
      :: slotEffects genesis count times rest (i + 1)

/-- Module-level flow (lines 54-96 and 199-219): .env validation, then —
only when slot targets are given — the beacon-RPC requirement check
before any HTTP activity, then the beacon genesis fetch, then the web3
connection, then the run(s).  Returns the effects performed and the
fatal error, if any, that stopped the run. -/
def mainFlow (env : Env) (args : Args) (beaconGenesis : Option Int)
    (connected : Bool) (times : Nat → Int) :
    List Effect × Option MainError :=
  match env.privateKey with
  | none => ([], some MainError.missingPrivateKey)
  | some _ =>
    match env.recipientAddress with
    | none => ([], some MainError.missingRecipient)
    | some _ =>
      if args.slots.isEmpty then
        if connected then
          ([Effect.web3Connect, Effect.spamRun args.count], none)
        else
          ([Effect.web3Connect], some MainError.connectFailed)
      else
        match args.beaconRpc with
        | none => ([], some MainError.missingBeaconRpc)
        | some _ =>
          match beaconGenesis with
          | none => ([Effect.beaconFetch], some MainError.genesisFetchFailed)
          | some g =>
            if connected then
              ([Effect.beaconFetch, Effect.web3Connect]
                ++ slotEffects g args.count times args.slots 0, none)
            else
              ([Effect.beaconFetch, Effect.web3Connect],
               some MainError.connectFailed)


/-! ### Concrete fixtures used to instantiate the theorems -/

/-- A concrete configuration (batch size 2). -/
def cfgW : Config :=
  { argBatchSize := 2, recipient := 77, amountWei := 6000, privateKey := 11,
    sleepSecs := 2 }

/-- A concrete configuration (batch size 1). -/
def cfg1 : Config :=
  { argBatchSize := 1, recipient := 7, amountWei := 2, privateKey := 3,
    sleepSecs := 1 }

/-- A concrete chain timeline: base fee `10^9` wei, priority fee `10^8` wei,
pending nonce 7, gas estimate 21000, every submission succeeding. -/
def chainW : Nat → ChainView := fun _ =>
  { estimateGas := some 21000
    baseFeePerGas := 1000000000
    maxPriorityFee := 100000000
    pendingNonce := 7
    chainId := 167
    send := fun s => some (5000 + s.tx.nonce) }

/-- A chain timeline on which gas estimation raises. -/
def chainNoEst : Nat → ChainView := fun _ =>
  { estimateGas := none
    baseFeePerGas := 9
    maxPriorityFee := 1
    pendingNonce := 0
    chainId := 1
    send := fun _ => none }

/-- A chain timeline whose gas estimate changes between batch 0 and batch 1. -/
def chainShift : Nat → ChainView := fun b =>
  { estimateGas := some (if b = 0 then 100 else 1000)
    baseFeePerGas := 5
    maxPriorityFee := 3
    pendingNonce := 40
    chainId := 1
    send := fun _ => none }

/-- A signer that always raises. -/
def signFail : Nat → Tx → Option SignedTx := fun _ _ => none

/-! ### Properties of the binary64 gas-limit model -/

theorem bitlenAux_zero (fuel : Nat) : bitlenAux fuel 0 = 0 := by
  cases fuel <;> simp [bitlenAux]

theorem bitlenAux_spec : ∀ fuel n, n < 2 ^ fuel → n ≠ 0 →
    1 ≤ bitlenAux fuel n ∧ 2 ^ (bitlenAux fuel n - 1) ≤ n ∧ n < 2 ^ bitlenAux fuel n := by
  intro fuel
  induction fuel with
  | zero => intro n hn h0; simp [pow_zero] at hn; omega
  | succ fuel ih =>
    intro n hn h0
    rw [bitlenAux, if_neg h0]
    by_cases hhalf : n / 2 = 0
    · have h1 : n = 1 := by omega
      subst h1
      rw [hhalf, bitlenAux_zero]
      norm_num
    · have hlt : n / 2 < 2 ^ fuel := by
        rw [pow_succ] at hn; omega
      obtain ⟨h1, h2, h3⟩ := ih (n / 2) hlt hhalf
      have hp : 2 ^ bitlenAux fuel (n / 2) = 2 * 2 ^ (bitlenAux fuel (n / 2) - 1) := by
        conv_lhs => rw [show bitlenAux fuel (n / 2) = (bitlenAux fuel (n / 2) - 1) + 1 by omega]
        rw [pow_succ]; ring
      have hp2 : 2 ^ (bitlenAux fuel (n / 2) + 1) = 2 * 2 ^ bitlenAux fuel (n / 2) := by
        rw [pow_succ]; ring
      refine ⟨by omega, ?_, ?_⟩
      · simpa [Nat.add_sub_cancel] using by omega
      · omega

theorem bitlen_spec (n : Nat) (h0 : n ≠ 0) (hlt : n < 2 ^ 128) :
    1 ≤ bitlen n ∧ 2 ^ (bitlen n - 1) ≤ n ∧ n < 2 ^ bitlen n :=
  bitlenAux_spec 128 n hlt h0

theorem roundNearEven_dev (num den : Nat) (hden : 0 < den) :
    2 * (roundNearEven num den * den) ≤ 2 * num + den ∧
    2 * num ≤ 2 * (roundNearEven num den * den) + den := by
  unfold roundNearEven
  obtain ⟨q, hq⟩ : ∃ q, num / den = q := ⟨_, rfl⟩
  obtain ⟨r, hr⟩ : ∃ r, num % den = r := ⟨_, rfl⟩
  have hdm : q * den + r = num := by rw [← hq, ← hr]; exact Nat.div_add_mod' num den
  have hmod : r < den := by rw [← hr]; exact Nat.mod_lt _ hden
  rw [hq, hr]
  subst hdm
  split_ifs with hA hB hC
  all_goals constructor
  all_goals try rw [add_mul, one_mul]
  all_goals generalize hP : q * den = P at *
  all_goals omega

theorem gasLimitOfEstimate_eq_floor (e : Nat) (he : e ≤ 2 ^ 49) :
    gasLimitOfEstimate e = 6 * e / 5 := by
  rcases Nat.lt_or_ge e 2 with h2 | h2
  · interval_cases e <;> decide
  · have hf : float12num = 5404319552844595 := by decide
    unfold gasLimitOfEstimate
    set n := e * float12num with hn
    have hn0 : n ≠ 0 := by
      rw [hn, hf]; positivity
    have hnlb : e * 2 ^ 52 ≤ n := by
      rw [hn]; exact Nat.mul_le_mul_left e (by rw [hf]; norm_num)
    have hnbig : 2 ^ 53 < n := by
      have h22 : 2 * float12num ≤ n := by rw [hn]; exact Nat.mul_le_mul_right _ h2
      rw [hf] at h22; omega
    have hnub : n < 2 ^ 102 := by
      rw [hn, hf]
      calc e * 5404319552844595 ≤ 2 ^ 49 * 5404319552844595 :=
            Nat.mul_le_mul_right _ he
        _ < 2 ^ 102 := by norm_num
    obtain ⟨hb1, hb2, hb3⟩ := bitlen_spec n hn0 (by omega)
    have hb54 : 54 ≤ bitlen n := by
      by_contra hcon
      push_neg at hcon
      have : 2 ^ bitlen n ≤ 2 ^ 53 := Nat.pow_le_pow_right (by norm_num) (by omega)
      omega
    have hb102 : bitlen n ≤ 102 := by
      by_contra hcon
      push_neg at hcon
      have : 2 ^ 102 ≤ 2 ^ (bitlen n - 1) := Nat.pow_le_pow_right (by norm_num) (by omega)
      omega
    rw [if_neg (by omega : ¬ bitlen n ≤ 53)]
    set t := bitlen n - 53 with ht
    have ht1 : 1 ≤ t := by omega
    have ht49 : t ≤ 49 := by omega
    have hbt : bitlen n = t + 53 := by omega
    have hT1 : 1 ≤ 2 ^ t := Nat.one_le_two_pow
    have hTle : (2:Nat) ^ t ≤ 2 ^ 49 := Nat.pow_le_pow_right (by norm_num) ht49
    have hTH : (2:Nat) ^ t = 2 * 2 ^ (t - 1) := by
      conv_lhs => rw [show t = (t - 1) + 1 by omega]
      rw [pow_succ]; ring
    obtain ⟨dev1, dev2⟩ := roundNearEven_dev n (2 ^ t) (by omega)
    have key : 5 * n + e = 6 * e * 2 ^ 52 := by
      have h5f : 5 * float12num + 1 = 6 * 2 ^ 52 := by rw [hf]; norm_num
      calc 5 * n + e = e * (5 * float12num + 1) := by rw [hn]; ring
        _ = e * (6 * 2 ^ 52) := by rw [h5f]
        _ = 6 * e * 2 ^ 52 := by ring
    have hNf : 6 * e = 5 * (6 * e / 5) + 6 * e % 5 := (Nat.div_add_mod _ 5).symm
    set N := 6 * e / 5 with hN
    set f := 6 * e % 5 with hf5
    have key2 : 5 * n + e = (5 * N + f) * 2 ^ 52 := by rw [← hNf]; exact key
    rcases Nat.eq_zero_or_pos f with hf0 | hf1
    · -- e is a multiple of 5: the rounded product is exactly N * 2^52
      have he5 : e % 5 = 0 := by omega
      set d := e / 5 with hdd
      have hd5 : 5 * d = e := by omega
      have hd1 : 1 ≤ d := by omega
      have hnd : n + d = N * 2 ^ 52 := by omega
      have h1 : 5 * d * 2 ^ 52 ≤ n := by rw [hd5]; exact hnlb
      have h2p : n < 2 ^ (t - 1) * 2 ^ 54 := by
        have hpow2 : (2:Nat) ^ (t - 1) * 2 ^ 54 = 2 ^ bitlen n := by
          rw [← pow_add]; congr 1; omega
        rw [hpow2]; exact hb3
      have hdH : d < 2 ^ (t - 1) := by
        generalize hH : (2:Nat) ^ (t - 1) = H at h2p
        omega
      have hpow : (2:Nat) ^ (52 - t) * 2 ^ t = 2 ^ 52 := by
        rw [← pow_add]; congr 1; omega
      set M := N * 2 ^ (52 - t) with hM
      have hMT : M * 2 ^ t = N * 2 ^ 52 := by rw [hM, mul_assoc, hpow]
      set sig := roundNearEven n (2 ^ t) with hsig
      have hsigM : sig = M := by
        rcases Nat.lt_trichotomy sig M with hlt | heq | hgt
        · exfalso
          have hx : sig * 2 ^ t + 2 ^ t ≤ M * 2 ^ t := by
            have hh := Nat.mul_le_mul_right (2 ^ t) (Nat.succ_le_of_lt hlt)
            rw [Nat.succ_mul] at hh
            exact hh
          have hxx : sig * 2 ^ t + 2 ^ t ≤ N * 2 ^ 52 := by rw [← hMT]; exact hx
          generalize hX : sig * 2 ^ t = X at hxx dev2
          generalize hT : (2:Nat) ^ t = T at hxx dev2 hTH
          generalize hH : (2:Nat) ^ (t - 1) = H at hTH hdH
          omega
        · exact heq
        · exfalso
          have hx : M * 2 ^ t + 2 ^ t ≤ sig * 2 ^ t := by
            have hh := Nat.mul_le_mul_right (2 ^ t) (Nat.succ_le_of_lt hgt)
            rw [Nat.succ_mul] at hh
            exact hh
          have hxx : N * 2 ^ 52 + 2 ^ t ≤ sig * 2 ^ t := by rw [← hMT]; exact hx
          generalize hX : sig * 2 ^ t = X at hxx dev1
          generalize hT : (2:Nat) ^ t = T at hxx dev1 hT1
          omega
      rw [hsigM, hMT]
      omega
    · -- e is not a multiple of 5: the product sits well inside (N, N+1)
      have hf4 : f ≤ 4 := by omega
      have hbounds : N * 2 ^ 52 + 2 ^ 49 ≤ n ∧ n + 2 ^ 49 ≤ (N + 1) * 2 ^ 52 := by
        omega
      generalize hX : roundNearEven n (2 ^ t) * 2 ^ t = X at dev1 dev2 ⊢
      generalize hT : (2:Nat) ^ t = T at dev1 dev2 hT1 hTle
      omega

/-! ### Properties of the batch loop -/

theorem signAll_signOk (key : Nat) (txs : List Tx) :
    signAll signOk key txs = some (txs.map fun t => ⟨t, key⟩) := by
  induction txs with
  | nil => rfl
  | cons t ts ih => simp [signAll, signOk, ih]

theorem runBatch_signOk (cfg : Config) (ch : ChainView) (gl bc : Nat) :
    runBatch cfg signOk ch gl bc = some (batchRecordOf cfg ch gl bc) := by
  simp [runBatch, batchRecordOf, signAll_signOk]

theorem batchRecordOf_txs_length (cfg : Config) (ch : ChainView) (gl bc : Nat) :
    (batchRecordOf cfg ch gl bc).txs.length = bc := by
  simp [batchRecordOf, buildTxs]

theorem batchSizesOf_nil : batchSizesOf [] = [] := rfl

theorem batchSizesOf_cons_batch (bc : Nat) (l : List Step) :
    batchSizesOf (Step.batch bc :: l) = bc :: batchSizesOf l := by
  simp [batchSizesOf]

theorem batchSizesOf_cons_sleep (l : List Step) :
    batchSizesOf (Step.sleep :: l) = batchSizesOf l := by
  simp [batchSizesOf]

theorem spamLoopAux_done (cfg : Config) (signer : Nat → Tx → Option SignedTx)
    (chain : Nat → ChainView) (gl bs count fuel sent idx : Nat) (h : count ≤ sent) :
    spamLoopAux cfg signer chain gl bs count fuel sent idx = ([], [], false) := by
  cases fuel with
  | zero => rfl
  | succ fuel => simp [spamLoopAux, Nat.not_lt.mpr h]

theorem spamLoopAux_fuel (cfg : Config) (signer : Nat → Tx → Option SignedTx)
    (chain : Nat → ChainView) (gl bs count : Nat) (hbs : 1 ≤ bs) :
    ∀ fuel1 fuel2 sent idx, count - sent ≤ fuel1 → count - sent ≤ fuel2 →
      spamLoopAux cfg signer chain gl bs count fuel1 sent idx
        = spamLoopAux cfg signer chain gl bs count fuel2 sent idx := by
  intro fuel1
  induction fuel1 with
  | zero =>
    intro fuel2 sent idx h1 h2
    have hle : count ≤ sent := by omega
    rw [spamLoopAux_done _ _ _ _ _ _ _ _ _ hle, spamLoopAux_done _ _ _ _ _ _ _ _ _ hle]
  | succ fuel1 ih =>
    intro fuel2 sent idx h1 h2
    by_cases hlt : sent < count
    · cases fuel2 with
      | zero => omega
      | succ fuel2 =>
        simp only [spamLoopAux, if_pos hlt]
        cases hrb : runBatch cfg signer (chain idx) gl (min bs (count - sent)) with
        | none => rfl
        | some r =>
          rw [ih fuel2 (sent + min bs (count - sent)) (idx + 1) (by omega) (by omega)]
    · have hle : count ≤ sent := by omega
      rw [spamLoopAux_done _ _ _ _ _ _ _ _ _ hle, spamLoopAux_done _ _ _ _ _ _ _ _ _ hle]

theorem spamLoopAux_run (cfg : Config) (chain : Nat → ChainView) (gl bs count : Nat)
    (hbs : 1 ≤ bs) :
    ∀ fuel sent idx, count - sent ≤ fuel → sent ≤ count →
      ∀ recs steps ab,
        spamLoopAux cfg signOk chain gl bs count fuel sent idx = (recs, steps, ab) →
        ab = false ∧
        (recs.map fun r => r.txs.length).sum = count - sent ∧
        batchSizesOf steps = recs.map (fun r => r.txs.length) ∧
        steps.getLast? ≠ some Step.sleep ∧
        steps.count Step.sleep + 1 = recs.length + (if count ≤ sent then 1 else 0) := by
  intro fuel
  induction fuel with
  | zero =>
    intro sent idx hfuel hsent recs steps ab heq
    have hle : count ≤ sent := by omega
    rw [spamLoopAux_done _ _ _ _ _ _ _ _ _ hle] at heq
    injection heq with h1 h23
    injection h23 with h2 h3
    subst h1; subst h2; subst h3
    refine ⟨rfl, ?_, rfl, by simp, by simp [hle]⟩
    simp only [List.map_nil, List.sum_nil]
    omega
  | succ fuel ih =>
    intro sent idx hfuel hsent recs steps ab heq
    by_cases hlt : sent < count
    · simp only [spamLoopAux, if_pos hlt, runBatch_signOk] at heq
      set bc := min bs (count - sent) with hbc
      have hbc1 : 1 ≤ bc := by omega
      rcases hrest : spamLoopAux cfg signOk chain gl bs count fuel (sent + bc) (idx + 1)
        with ⟨recs2, steps2, ab2⟩
      rw [hrest] at heq
      dsimp only at heq
      by_cases hmore : sent + bc < count
      · rw [if_pos hmore] at heq
        injection heq with h1 h23
        injection h23 with h2 h3
        subst h1; subst h2; subst h3
        obtain ⟨ha, hsum, hsizes, hlast, hcnt⟩ :=
          ih (sent + bc) (idx + 1) (by omega) (by omega) recs2 steps2 ab2 hrest
        rw [if_neg (by omega : ¬ count ≤ sent + bc)] at hcnt
        refine ⟨ha, ?_, ?_, ?_, ?_⟩
        · simp only [List.map_cons, List.sum_cons, batchRecordOf_txs_length]
          omega
        · rw [batchSizesOf_cons_batch, batchSizesOf_cons_sleep, hsizes]
          simp [batchRecordOf_txs_length]
        · have hlen2 : 1 ≤ recs2.length := by omega
          have hne : steps2 ≠ [] := by
            intro hnil
            rw [hnil, batchSizesOf_nil] at hsizes
            have hlencong := congrArg List.length hsizes
            simp at hlencong
            omega
          rcases steps2 with _ | ⟨s, ss⟩
          · exact absurd rfl hne
          · rw [List.getLast?_cons_cons, List.getLast?_cons_cons]
            exact hlast
        · simp only [List.count_cons, List.length_cons]
          rw [if_neg (by omega : ¬ count ≤ sent)]
          simp only [beq_iff_eq, reduceCtorEq, if_false, if_true]
          simp
          omega
      · rw [spamLoopAux_done _ _ _ _ _ _ _ _ _ (by omega)] at hrest
        injection hrest with g1 g23
        injection g23 with g2 g3
        subst g1; subst g2; subst g3
        rw [if_neg hmore] at heq
        injection heq with h1 h23
        injection h23 with h2 h3
        subst h1; subst h2; subst h3
        refine ⟨rfl, ?_, ?_, by simp, ?_⟩
        · simp only [List.map_cons, List.map_nil, List.sum_cons, List.sum_nil,
            batchRecordOf_txs_length]
          omega
        · rw [batchSizesOf_cons_batch, batchSizesOf_nil]
          simp [batchRecordOf_txs_length]
        · simp only [List.count_cons, List.count_nil, List.length_cons, List.length_nil]
          rw [if_neg (by omega : ¬ count ≤ sent)]
          simp
    · have hle : count ≤ sent := by omega
      rw [spamLoopAux_done _ _ _ _ _ _ _ _ _ hle] at heq
      injection heq with h1 h23
      injection h23 with h2 h3
      subst h1; subst h2; subst h3
      refine ⟨rfl, ?_, rfl, by simp, by simp [hle]⟩
      simp only [List.map_nil, List.sum_nil]
      omega

theorem spamLoopAux_get (cfg : Config) (chain : Nat → ChainView) (gl bs count : Nat)
    (hbs : 1 ≤ bs) :
    ∀ fuel sent idx, count - sent ≤ fuel →
      ∀ b (hb : b < (spamLoopAux cfg signOk chain gl bs count fuel sent idx).1.length),
        (spamLoopAux cfg signOk chain gl bs count fuel sent idx).1[b]
          = batchRecordOf cfg (chain (idx + b)) gl (min bs (count - (sent + b * bs)))
        ∧ sent + b * bs < count := by
  intro fuel
  induction fuel with
  | zero =>
    intro sent idx hfuel b hb
    simp [spamLoopAux] at hb
  | succ fuel ih =>
    intro sent idx hfuel b hb
    by_cases hlt : sent < count
    · simp only [spamLoopAux, if_pos hlt, runBatch_signOk] at hb ⊢
      set bc := min bs (count - sent) with hbc
      have hbc1 : 1 ≤ bc := by omega
      cases b with
      | zero =>
        refine ⟨?_, by omega⟩
        simp only [List.getElem_cons_zero, Nat.add_zero, Nat.zero_mul]
      | succ b' =>
        simp only [List.getElem_cons_succ, List.length_cons] at hb ⊢
        obtain ⟨hget, hlt2⟩ :=
          ih (sent + bc) (idx + 1) (by omega) b' (by simpa using hb)
        have hbseq : bc = bs := by
          generalize hm : b' * bs = m at hlt2
          omega
        have hmul : (b' + 1) * bs = b' * bs + bs := by ring
        constructor
        · rw [hget]
          have e1 : idx + 1 + b' = idx + (b' + 1) := by omega
          have e2 : sent + bc + b' * bs = sent + (b' + 1) * bs := by
            rw [hbseq, hmul]; ring
          rw [e1, e2]
        · generalize hm : b' * bs = m at hlt2 hmul
          omega
    · rw [spamLoopAux_done _ _ _ _ _ _ _ _ _ (by omega)] at hb
      simp at hb

theorem spamRecords_eq (cfg : Config) (chain : Nat → ChainView) (count : Nat) :
    spamRecords cfg chain count
      = (spamLoopAux cfg signOk chain (runGasLimit (chain 0).estimateGas)
          (min cfg.argBatchSize count) count count 0 0).1 := rfl

theorem spamSteps_eq (cfg : Config) (chain : Nat → ChainView) (count : Nat) :
    spamSteps cfg chain count
      = (spamLoopAux cfg signOk chain (runGasLimit (chain 0).estimateGas)
          (min cfg.argBatchSize count) count count 0 0).2.1 := rfl

theorem spamRecords_get (cfg : Config) (chain : Nat → ChainView) (count b : Nat)
    (hbs : 1 ≤ cfg.argBatchSize)
    (hb : b < (spamRecords cfg chain count).length) :
    (spamRecords cfg chain count)[b]
      = batchRecordOf cfg (chain b) (runGasLimit (chain 0).estimateGas)
          (min cfg.argBatchSize (count - b * min cfg.argBatchSize count))
    ∧ b * min cfg.argBatchSize count < count := by
  rcases Nat.eq_zero_or_pos count with h0 | h0
  · subst h0
    rw [spamRecords_eq, spamLoopAux_done _ _ _ _ _ _ _ _ _ (by omega)] at hb
    simp at hb
  · have hbs2 : 1 ≤ min cfg.argBatchSize count := by omega
    rw [spamRecords_eq] at hb
    obtain ⟨hget, hlt⟩ := spamLoopAux_get cfg chain (runGasLimit (chain 0).estimateGas)
      (min cfg.argBatchSize count) count hbs2 count 0 0 (by omega) b hb
    refine ⟨?_, by simpa using hlt⟩
    have hcast : (spamRecords cfg chain count)[b]
        = (spamLoopAux cfg signOk chain (runGasLimit (chain 0).estimateGas)
            (min cfg.argBatchSize count) count count 0 0).1[b] := rfl
    rw [hcast, hget]
    have e1 : 0 + b = b := by omega
    rw [e1]
    congr 1
    generalize hm : b * min cfg.argBatchSize count = m
    omega

theorem spamRecords_take_sum (cfg : Config) (chain : Nat → ChainView) (count : Nat)
    (hbs : 1 ≤ cfg.argBatchSize) :
    ∀ b, b < (spamRecords cfg chain count).length →
      (((spamRecords cfg chain count).take b).map fun r => r.txs.length).sum
        = b * min cfg.argBatchSize count := by
  intro b
  induction b with
  | zero => intro hb; simp
  | succ b' ih =>
    intro hb
    have hb' : b' < (spamRecords cfg chain count).length := by omega
    have htake : (spamRecords cfg chain count).take (b' + 1)
        = (spamRecords cfg chain count).take b'
            ++ [(spamRecords cfg chain count)[b']] := by
      rw [List.take_succ, List.getElem?_eq_getElem hb']
      rfl
    rw [htake]
    simp only [List.map_append, List.sum_append, List.map_cons, List.map_nil,
      List.sum_cons, List.sum_nil]
    rw [ih hb']
    obtain ⟨hget, hlt0⟩ := spamRecords_get cfg chain count b' hbs hb'
    obtain ⟨hget1, hlt1⟩ := spamRecords_get cfg chain count (b' + 1) hbs hb
    rw [hget, batchRecordOf_txs_length]
    have hmul : (b' + 1) * min cfg.argBatchSize count
        = b' * min cfg.argBatchSize count + min cfg.argBatchSize count := by ring
    generalize hm2 : (b' + 1) * min cfg.argBatchSize count = m2 at hmul hlt1 ⊢
    generalize hm : b' * min cfg.argBatchSize count = m at hmul ⊢
    omega

theorem spam_run_facts (cfg : Config) (chain : Nat → ChainView) (count : Nat)
    (hbs : 1 ≤ cfg.argBatchSize) :
    (spam_transactions cfg signOk chain count).2.2 = false ∧
    ((spamRecords cfg chain count).map fun r => r.txs.length).sum = count ∧
    batchSizesOf (spamSteps cfg chain count)
      = (spamRecords cfg chain count).map (fun r => r.txs.length) ∧
    (spamSteps cfg chain count).getLast? ≠ some Step.sleep ∧
    (spamSteps cfg chain count).count Step.sleep + 1
      = (spamRecords cfg chain count).length + (if count = 0 then 1 else 0) := by
  rcases Nat.eq_zero_or_pos count with h0 | h0
  · subst h0
    refine ⟨rfl, rfl, rfl, by simp [spamSteps, spam_transactions, spamLoopAux], by rfl⟩
  · have hbs2 : 1 ≤ min cfg.argBatchSize count := by omega
    rcases hx : spamLoopAux cfg signOk chain (runGasLimit (chain 0).estimateGas)
        (min cfg.argBatchSize count) count count 0 0 with ⟨recs, steps, ab⟩
    obtain ⟨ha, hsum, hsz, hlast, hcnt⟩ :=
      spamLoopAux_run cfg chain (runGasLimit (chain 0).estimateGas)
        (min cfg.argBatchSize count) count hbs2 count 0 0 (by omega) (by omega)
        recs steps ab hx
    have hr : spamRecords cfg chain count = recs := by rw [spamRecords_eq, hx]
    have hs : spamSteps cfg chain count = steps := by rw [spamSteps_eq, hx]
    have hab : (spam_transactions cfg signOk chain count).2.2 = ab := by
      have : spam_transactions cfg signOk chain count
          = spamLoopAux cfg signOk chain (runGasLimit (chain 0).estimateGas)
              (min cfg.argBatchSize count) count count 0 0 := rfl
      rw [this, hx]
    refine ⟨by rw [hab]; exact ha, ?_, by rw [hs, hr]; exact hsz,
      by rw [hs]; exact hlast, ?_⟩
    · rw [hr]
      omega
    · rw [hs, hr]
      rw [if_neg (by omega : ¬ count = 0)]
      rw [if_neg (by omega : ¬ count ≤ 0)] at hcnt
      omega

theorem batchRecordOf_gasLimit (cfg : Config) (ch : ChainView) (gl bc : Nat) :
    (batchRecordOf cfg ch gl bc).gasLimit = gl := rfl

theorem batchRecordOf_maxFee (cfg : Config) (ch : ChainView) (gl bc : Nat) :
    (batchRecordOf cfg ch gl bc).maxFee
      = ch.baseFeePerGas * 2 + ch.maxPriorityFee := rfl

theorem batchRecordOf_prio (cfg : Config) (ch : ChainView) (gl bc : Nat) :
    (batchRecordOf cfg ch gl bc).prio = ch.maxPriorityFee := rfl

theorem batchRecordOf_pending (cfg : Config) (ch : ChainView) (gl bc : Nat) :
    (batchRecordOf cfg ch gl bc).pending = ch.pendingNonce := rfl

theorem batchRecordOf_maxWorkers (cfg : Config) (ch : ChainView) (gl bc : Nat) :
    (batchRecordOf cfg ch gl bc).maxWorkers = bc := rfl

theorem batchRecordOf_callsEq (cfg : Config) (ch : ChainView) (gl bc : Nat) :
    (batchRecordOf cfg ch gl bc).calls = batchCalls bc := rfl

theorem batchRecordOf_resultsEq (cfg : Config) (ch : ChainView) (gl bc : Nat) :
    (batchRecordOf cfg ch gl bc).results
      = (batchRecordOf cfg ch gl bc).txs.map ch.send := rfl

theorem batchRecordOf_nonces (cfg : Config) (ch : ChainView) (gl bc : Nat) :
    (batchRecordOf cfg ch gl bc).txs.map (fun s => s.tx.nonce)
      = List.range' ch.pendingNonce bc := by
  simp [batchRecordOf, buildTxs, List.map_map, List.range'_eq_map_range]

theorem batchRecordOf_txs_get (cfg : Config) (ch : ChainView) (gl bc j : Nat)
    (hj : j < (batchRecordOf cfg ch gl bc).txs.length) :
    (batchRecordOf cfg ch gl bc).txs[j]
      = ⟨{ nonce := ch.pendingNonce + j
           toAddr := cfg.recipient
           value := cfg.amountWei
           gas := gl
           maxFeePerGas := ch.baseFeePerGas * 2 + ch.maxPriorityFee
           maxPriorityFeePerGas := ch.maxPriorityFee
           chainId := ch.chainId
           txType := 2 },
         cfg.privateKey⟩ := by
  have hj2 : j < bc := by
    simpa [batchRecordOf_txs_length] using hj
  simp [batchRecordOf, buildTxs]

theorem batchCalls_count_getTransactionCount (bc : Nat) :
    (batchCalls bc).count RpcCall.getTransactionCount = 1 := by
  simp [batchCalls, List.count_append, List.count_replicate, List.count_cons]

theorem batchCalls_count_estimateGas (bc : Nat) :
    (batchCalls bc).count RpcCall.estimateGas = 0 := by
  simp [batchCalls, List.count_append, List.count_replicate, List.count_cons]

theorem batchCalls_count_getBlockLatest (bc : Nat) :
    (batchCalls bc).count RpcCall.getBlockLatest = 1 := by
  simp [batchCalls, List.count_append, List.count_replicate, List.count_cons]

theorem batchCalls_count_maxPriorityFee (bc : Nat) :
    (batchCalls bc).count RpcCall.maxPriorityFee = 1 := by
  simp [batchCalls, List.count_append, List.count_replicate, List.count_cons]

/-! ### The claims -/

theorem batchRecordOf_baseFee (cfg : Config) (ch : ChainView) (gl bc : Nat) :
    (batchRecordOf cfg ch gl bc).baseFee = ch.baseFeePerGas := rfl

theorem batchRecordOf_maxFees_map (cfg : Config) (ch : ChainView) (gl bc : Nat) :
    (batchRecordOf cfg ch gl bc).txs.map (fun s => s.tx.maxFeePerGas)
      = List.replicate bc (ch.baseFeePerGas * 2 + ch.maxPriorityFee) := by
  have h2 : List.map (fun _ : Nat => ch.baseFeePerGas * 2 + ch.maxPriorityFee) (List.range bc)
      = List.replicate bc (ch.baseFeePerGas * 2 + ch.maxPriorityFee) := by
    rw [List.map_const', List.length_range]
  simp only [batchRecordOf, buildTxs, List.map_map]
  exact (show _ = List.map (fun _ : Nat => ch.baseFeePerGas * 2 + ch.maxPriorityFee) (List.range bc) from rfl).trans h2

theorem batchRecordOf_prios_map (cfg : Config) (ch : ChainView) (gl bc : Nat) :
    (batchRecordOf cfg ch gl bc).txs.map (fun s => s.tx.maxPriorityFeePerGas)
      = List.replicate bc ch.maxPriorityFee := by
  have h2 : List.map (fun _ : Nat => ch.maxPriorityFee) (List.range bc)
      = List.replicate bc (ch.maxPriorityFee) := by
    rw [List.map_const', List.length_range]
  simp only [batchRecordOf, buildTxs, List.map_map]
  exact (show _ = List.map (fun _ : Nat => ch.maxPriorityFee) (List.range bc) from rfl).trans h2

theorem batchRecordOf_gas_map (cfg : Config) (ch : ChainView) (gl bc : Nat) :
    (batchRecordOf cfg ch gl bc).txs.map (fun s => s.tx.gas)
      = List.replicate bc gl := by
  have h2 : List.map (fun _ : Nat => gl) (List.range bc)
      = List.replicate bc (gl) := by
    rw [List.map_const', List.length_range]
  simp only [batchRecordOf, buildTxs, List.map_map]
  exact (show _ = List.map (fun _ : Nat => gl) (List.range bc) from rfl).trans h2

/-- C1: for every batch, the nonce allocator reads the pending
transaction count exactly once, and the batch's transactions carry the
contiguous ascending nonces `pendingNonce, …, pendingNonce + n - 1`
(pairwise distinct), without re-reading the count in between. -/
theorem c1_nonce_allocator (cfg : Config) (chain : Nat → ChainView) (count b : Nat)
    (hbs : 1 ≤ cfg.argBatchSize) (hb : b < (spamRecords cfg chain count).length) :
    (spamRecords cfg chain count)[b].calls.count RpcCall.getTransactionCount = 1 ∧
    (spamRecords cfg chain count)[b].pending = (chain b).pendingNonce ∧
    (spamRecords cfg chain count)[b].txs.map (fun s => s.tx.nonce)
      = List.range' (chain b).pendingNonce
          ((spamRecords cfg chain count)[b].txs.length) ∧
    ((spamRecords cfg chain count)[b].txs.map (fun s => s.tx.nonce)).Nodup := by
  obtain ⟨hget, hlt⟩ := spamRecords_get cfg chain count b hbs hb
  rw [hget]
  refine ⟨?_, ?_, ?_, ?_⟩
  · rw [batchRecordOf_callsEq]
    exact batchCalls_count_getTransactionCount _
  · exact batchRecordOf_pending ..
  · rw [batchRecordOf_nonces, batchRecordOf_txs_length]
  · rw [batchRecordOf_nonces]
    exact List.nodup_range' _ _

/-- C2: every batch's `maxFeePerGas` is exactly twice the batch's
observed base fee plus the observed priority fee, each transaction carries
exactly these fields, and the stand-alone `send_transaction` computes the
same formula. -/
theorem c2_fee_formula (cfg : Config) (chain : Nat → ChainView) (count b : Nat)
    (hbs : 1 ≤ cfg.argBatchSize) (hb : b < (spamRecords cfg chain count).length) :
    (spamRecords cfg chain count)[b].maxFee
      = 2 * (chain b).baseFeePerGas + (chain b).maxPriorityFee ∧
    (spamRecords cfg chain count)[b].txs.map (fun s => s.tx.maxFeePerGas)
      = List.replicate ((spamRecords cfg chain count)[b].txs.length)
          (2 * (chain b).baseFeePerGas + (chain b).maxPriorityFee) ∧
    (spamRecords cfg chain count)[b].txs.map (fun s => s.tx.maxPriorityFeePerGas)
      = List.replicate ((spamRecords cfg chain count)[b].txs.length)
          (chain b).maxPriorityFee ∧
    (∀ (ch : ChainView) (nonce : Nat),
      (send_transaction cfg ch nonce).1.maxFeePerGas
          = 2 * ch.baseFeePerGas + ch.maxPriorityFee ∧
      (send_transaction cfg ch nonce).1.maxPriorityFeePerGas
          = ch.maxPriorityFee) := by
  obtain ⟨hget, hlt⟩ := spamRecords_get cfg chain count b hbs hb
  rw [hget]
  have hcomm : (chain b).baseFeePerGas * 2 + (chain b).maxPriorityFee
      = 2 * (chain b).baseFeePerGas + (chain b).maxPriorityFee := by ring
  refine ⟨?_, ?_, ?_, ?_⟩
  · rw [batchRecordOf_maxFee, hcomm]
  · rw [batchRecordOf_maxFees_map, batchRecordOf_txs_length, hcomm]
  · rw [batchRecordOf_prios_map, batchRecordOf_txs_length]
  · intro ch nonce
    constructor
    · show ch.baseFeePerGas * 2 + ch.maxPriorityFee
          = 2 * ch.baseFeePerGas + ch.maxPriorityFee
      ring
    · rfl

/-- C3: when gas estimation raises, the fallback gas limit 40000 is
used, no exception escapes (the run completes normally), batch
construction proceeds (at least one batch is built, every transaction
carrying gas 40000), and `send_transaction` falls back identically. -/
theorem c3_estimation_fallback (cfg : Config) (chain : Nat → ChainView) (count : Nat)
    (hbs : 1 ≤ cfg.argBatchSize) (hc : 1 ≤ count)
    (hest : (chain 0).estimateGas = none) :
    runGasLimit (chain 0).estimateGas = 40000 ∧
    (spam_transactions cfg signOk chain count).2.2 = false ∧
    spamRecords cfg chain count ≠ [] ∧
    (∀ b, (hb : b < (spamRecords cfg chain count).length) →
      (spamRecords cfg chain count)[b].gasLimit = 40000 ∧
      (spamRecords cfg chain count)[b].txs.map (fun s => s.tx.gas)
        = List.replicate ((spamRecords cfg chain count)[b].txs.length) 40000) ∧
    (∀ ch : ChainView, ch.estimateGas = none →
      ∀ nonce, (send_transaction cfg ch nonce).1.gas = 40000) := by
  obtain ⟨hab, hsum, hsz, hlast, hcnt⟩ := spam_run_facts cfg chain count hbs
  have h40 : runGasLimit (chain 0).estimateGas = 40000 := by rw [hest]; rfl
  refine ⟨h40, hab, ?_, ?_, ?_⟩
  · intro hnil
    rw [hnil] at hsum
    simp at hsum
    omega
  · intro b hb
    obtain ⟨hget, hlt⟩ := spamRecords_get cfg chain count b hbs hb
    rw [hget]
    constructor
    · rw [batchRecordOf_gasLimit, h40]
    · rw [batchRecordOf_gas_map, batchRecordOf_txs_length, h40]
  · intro ch hch nonce
    show runGasLimit ch.estimateGas = 40000
    rw [hch]
    rfl

/-- C5 (amended): `maxFeePerGas` and `maxPriorityFeePerGas` are
re-derived from the batch's own chain observation, once per batch, but the
gas limit of the quote is derived once per run — before the first batch —
and shared by every batch. -/
theorem c5_fee_quote_per_batch (cfg : Config) (chain : Nat → ChainView) (count b : Nat)
    (hbs : 1 ≤ cfg.argBatchSize) (hb : b < (spamRecords cfg chain count).length) :
    (spamRecords cfg chain count)[b].baseFee = (chain b).baseFeePerGas ∧
    (spamRecords cfg chain count)[b].prio = (chain b).maxPriorityFee ∧
    (spamRecords cfg chain count)[b].maxFee
      = (chain b).baseFeePerGas * 2 + (chain b).maxPriorityFee ∧
    (spamRecords cfg chain count)[b].gasLimit
      = runGasLimit (chain 0).estimateGas ∧
    (spamRecords cfg chain count)[b].calls.count RpcCall.getBlockLatest = 1 ∧
    (spamRecords cfg chain count)[b].calls.count RpcCall.maxPriorityFee = 1 ∧
    (spamRecords cfg chain count)[b].calls.count RpcCall.estimateGas = 0 := by
  obtain ⟨hget, hlt⟩ := spamRecords_get cfg chain count b hbs hb
  rw [hget]
  refine ⟨batchRecordOf_baseFee .., batchRecordOf_prio .., batchRecordOf_maxFee ..,
    batchRecordOf_gasLimit .., ?_, ?_, ?_⟩
  · rw [batchRecordOf_callsEq]; exact batchCalls_count_getBlockLatest _
  · rw [batchRecordOf_callsEq]; exact batchCalls_count_maxPriorityFee _
  · rw [batchRecordOf_callsEq]; exact batchCalls_count_estimateGas _

/-- C6: the dispatcher submits with a worker pool bounded by the batch
size, produces exactly one outcome per transaction, and each outcome is a
function of that transaction alone — no failure prevents or aborts a
sibling submission. -/
theorem c6_dispatcher (cfg : Config) (chain : Nat → ChainView) (count b : Nat)
    (hbs : 1 ≤ cfg.argBatchSize) (hb : b < (spamRecords cfg chain count).length) :
    (spamRecords cfg chain count)[b].results
      = (spamRecords cfg chain count)[b].txs.map (chain b).send ∧
    (spamRecords cfg chain count)[b].results.length
      = (spamRecords cfg chain count)[b].txs.length ∧
    (spamRecords cfg chain count)[b].maxWorkers
      = (spamRecords cfg chain count)[b].txs.length := by
  obtain ⟨hget, hlt⟩ := spamRecords_get cfg chain count b hbs hb
  rw [hget]
  refine ⟨batchRecordOf_resultsEq .., ?_, ?_⟩
  · rw [batchRecordOf_resultsEq, List.length_map]
  · rw [batchRecordOf_maxWorkers, batchRecordOf_txs_length]

theorem floorEqCeil (x : Nat) (h5 : x % 5 = 0) : 6 * x / 5 = (6 * x + 4) / 5 := by
  have hr : x % 5 < 5 := Nat.mod_lt _ (by norm_num)
  have hdm : x = 5 * (x / 5) + x % 5 := (Nat.div_add_mod x 5).symm
  generalize hd : x / 5 = d at hdm
  generalize hrr : x % 5 = r at hdm hr h5
  subst hdm
  omega

theorem floorSuccCeil (x : Nat) (h5 : x % 5 ≠ 0) : 6 * x / 5 + 1 = (6 * x + 4) / 5 := by
  have hr : x % 5 < 5 := Nat.mod_lt _ (by norm_num)
  have hdm : x = 5 * (x / 5) + x % 5 := (Nat.div_add_mod x 5).symm
  generalize hd : x / 5 = d at hdm
  generalize hrr : x % 5 = r at hdm hr h5
  subst hdm
  omega

/-- C4 counterexample: a successful estimate of 7 yields gas limit
`int(7 * 1.2) = 8` in the batch's transactions, while the claim's
"least integer greater than or equal to `1.2 · 7`" is 9. -/
theorem c4_counterexample :
    gasLimitOfEstimate 7 = 8 ∧
    gasLimitSpecCeil 7 = 9 ∧
    ((spamRecords cfg1
        (fun _ => { estimateGas := some 7, baseFeePerGas := 5, maxPriorityFee := 3,
                    pendingNonce := 0, chainId := 1, send := fun _ => none }) 1).map
      fun r => r.txs.map fun s => s.tx.gas) = [[8]] ∧
    (8 : Nat) ≠ 9 := by
  refine ⟨by decide, by decide, by decide, by decide⟩

/-- C4 (amended): the gas limit is the double-precision product
`e * 1.2` truncated toward zero: for every estimate `e ≤ 2 ^ 49` it equals
`⌊6e/5⌋`, which matches the spec's ceiling exactly when `5 ∣ e` and is one
below it otherwise — the code rounds down, not up. -/
theorem c4_gas_limit_rounds_down (e : Nat) (he : e ≤ 2 ^ 49) :
    gasLimitOfEstimate e = 6 * e / 5 ∧
    (e % 5 = 0 → gasLimitOfEstimate e = gasLimitSpecCeil e) ∧
    (e % 5 ≠ 0 → gasLimitOfEstimate e + 1 = gasLimitSpecCeil e) := by
  have h := gasLimitOfEstimate_eq_floor e he
  refine ⟨h, ?_, ?_⟩ <;> intro h5 <;> rw [h] <;> simp only [gasLimitSpecCeil]
  · exact floorEqCeil e h5
  · exact floorSuccCeil e h5

theorem c4_rounds_down_witness :
    7 ≤ 2 ^ 49 ∧ gasLimitOfEstimate 7 = 6 * 7 / 5 ∧
    (7 % 5 ≠ 0 → gasLimitOfEstimate 7 + 1 = gasLimitSpecCeil 7) :=
  ⟨by norm_num, (c4_gas_limit_rounds_down 7 (by norm_num)).1,
   (c4_gas_limit_rounds_down 7 (by norm_num)).2.2⟩

/-- C5 counterexample: with batch size 1 and count 2, the chain's gas
estimate changes from 100 to 1000 between the two batches, yet both batch
records carry gas limit 120 (derived once, before the loop, from the first
observation); a quote re-derived from batch 1's chain state would carry
1200, and no batch performs an `estimate_gas` call at all. -/
theorem c5_counterexample :
    ((spamRecords cfg1 chainShift 2).map fun r => r.gasLimit) = [120, 120] ∧
    gasLimitOfEstimate 100 = 120 ∧
    gasLimitOfEstimate 1000 = 1200 ∧
    (chainShift 1).estimateGas = some 1000 ∧
    ((spamRecords cfg1 chainShift 2).map
        fun r => r.calls.count RpcCall.estimateGas) = [0, 0] ∧
    (120 : Nat) ≠ 1200 := by
  refine ⟨by decide, by decide, by decide, by decide, by decide, by decide⟩

/-- C7: for every genesis timestamp, current time, and target slot in
`[0, 31]`, the slot-wait computation yields a strictly positive wait that
lands exactly on a 12-second slot boundary whose epoch-relative index is
the target slot. -/
theorem c7_slot_wait (genesis current slot : Int)
    (h0 : 0 ≤ slot) (h31 : slot ≤ 31) :
    0 < time_until_slot genesis current slot ∧
    (current + time_until_slot genesis current slot - genesis) % 12 = 0 ∧
    ((current + time_until_slot genesis current slot - genesis) / 12) % 32
      = slot := by
  simp only [time_until_slot]
  split_ifs with h <;> omega

theorem c7_slot_wait_witness :
    (0 : Int) ≤ 5 ∧ (5 : Int) ≤ 31 ∧
    (0 < time_until_slot 0 100 5 ∧
     (100 + time_until_slot 0 100 5 - 0) % 12 = 0 ∧
     ((100 + time_until_slot 0 100 5 - 0) / 12) % 32 = 5) :=
  ⟨by norm_num, by norm_num, c7_slot_wait 0 100 5 (by norm_num) (by norm_num)⟩

/-- C8: when slot targets are configured but no beacon RPC endpoint is
given, the run aborts with the configuration error before performing any
outward effect: no beacon fetch, no chain connection, no submission. -/
theorem c8_fail_fast (env : Env) (args : Args) (beaconGenesis : Option Int)
    (connected : Bool) (times : Nat → Int)
    (hpk : env.privateKey ≠ none) (hrec : env.recipientAddress ≠ none)
    (hslots : args.slots ≠ []) (hrpc : args.beaconRpc = none) :
    mainFlow env args beaconGenesis connected times
      = ([], some MainError.missingBeaconRpc) := by
  rcases hpkv : env.privateKey with _ | pk
  · exact absurd hpkv hpk
  rcases hrecv : env.recipientAddress with _ | rec
  · exact absurd hrecv hrec
  rcases hsl : args.slots with _ | ⟨s, rest⟩
  · exact absurd hsl hslots
  simp [mainFlow, hpkv, hrecv, hsl, hrpc]

theorem c8_fail_fast_witness :
    mainFlow { privateKey := some 1, recipientAddress := some 2 }
        { count := 1, slots := [0], beaconRpc := none }
        (some 0) true (fun _ => 0)
      = ([], some MainError.missingBeaconRpc) :=
  c8_fail_fast _ _ _ _ _ (by decide) (by decide) (by decide) (by decide)

/-- C9: each batch's size is the minimum of the configured max batch
size and the remaining count; all transactions of a batch are constructed
and signed before any is submitted (each batch's outcomes are a function
of its complete signed cohort); and a batch whose construction fails
produces no record, no steps, and no submission. -/
theorem c9_batch_builder (cfg : Config) (chain : Nat → ChainView) (count : Nat)
    (hbs : 1 ≤ cfg.argBatchSize) :
    (∀ b, (hb : b < (spamRecords cfg chain count).length) →
      (spamRecords cfg chain count)[b].txs.length
          = min cfg.argBatchSize
              (count -
                (((spamRecords cfg chain count).take b).map
                    fun r => r.txs.length).sum) ∧
      (spamRecords cfg chain count)[b].results
          = (spamRecords cfg chain count)[b].txs.map (chain b).send) ∧
    (∀ (signer : Nat → Tx → Option SignedTx) (gl bs count2 fuel sent idx : Nat),
      sent < count2 →
      runBatch cfg signer (chain idx) gl (min bs (count2 - sent)) = none →
      spamLoopAux cfg signer chain gl bs count2 (fuel + 1) sent idx
        = ([], [], true)) := by
  constructor
  · intro b hb
    obtain ⟨hget, hlt⟩ := spamRecords_get cfg chain count b hbs hb
    have hts := spamRecords_take_sum cfg chain count hbs b hb
    constructor
    · rw [hts, hget, batchRecordOf_txs_length]
    · rw [hget]
      exact batchRecordOf_resultsEq ..
  · intro signer gl bs count2 fuel sent idx hsent hrb
    simp only [spamLoopAux, if_pos hsent, hrb]

/-- C10: the batching loop terminates (its outcome is independent of
any sufficient fuel bound), the total number of attempted transactions
over all batches equals the requested count exactly, and the inter-batch
sleep occurs only between batches — never after the final batch. -/
theorem c10_loop_accounting (cfg : Config) (chain : Nat → ChainView) (count : Nat)
    (hbs : 1 ≤ cfg.argBatchSize) :
    (batchSizesOf (spamSteps cfg chain count)).sum = count ∧
    ((spamRecords cfg chain count).map fun r => r.txs.length).sum = count ∧
    (spamSteps cfg chain count).getLast? ≠ some Step.sleep ∧
    (spamSteps cfg chain count).count Step.sleep + 1
      = (spamRecords cfg chain count).length + (if count = 0 then 1 else 0) ∧
    (∀ fuel, count ≤ fuel →
      spamLoopAux cfg signOk chain (runGasLimit (chain 0).estimateGas)
          (min cfg.argBatchSize count) count fuel 0 0
        = spamLoopAux cfg signOk chain (runGasLimit (chain 0).estimateGas)
            (min cfg.argBatchSize count) count count 0 0) := by
  obtain ⟨hab, hsum, hsz, hlast, hcnt⟩ := spam_run_facts cfg chain count hbs
  refine ⟨?_, hsum, hlast, hcnt, ?_⟩
  · rw [hsz]; exact hsum
  · intro fuel hf
    rcases Nat.eq_zero_or_pos count with h0 | h0
    · subst h0
      rw [spamLoopAux_done _ _ _ _ _ _ _ _ _ (by omega),
        spamLoopAux_done _ _ _ _ _ _ _ _ _ (by omega)]
    · exact spamLoopAux_fuel cfg signOk chain _ _ count (by omega) fuel count 0 0
        (by omega) (by omega)

theorem c1_nonce_allocator_witness :
    1 ≤ cfgW.argBatchSize ∧ 0 < (spamRecords cfgW chainW 3).length ∧
    (((spamRecords cfgW chainW 3).get ⟨0, by decide⟩).calls.count
        RpcCall.getTransactionCount = 1 ∧
     ((spamRecords cfgW chainW 3).get ⟨0, by decide⟩).pending
        = (chainW 0).pendingNonce ∧
     ((spamRecords cfgW chainW 3).get ⟨0, by decide⟩).txs.map (fun s => s.tx.nonce)
        = List.range' (chainW 0).pendingNonce
            (((spamRecords cfgW chainW 3).get ⟨0, by decide⟩).txs.length) ∧
     (((spamRecords cfgW chainW 3).get ⟨0, by decide⟩).txs.map
        (fun s => s.tx.nonce)).Nodup) :=
  ⟨by decide, by decide, c1_nonce_allocator cfgW chainW 3 0 (by decide) (by decide)⟩

theorem c2_fee_formula_witness :
    1 ≤ cfgW.argBatchSize ∧ 0 < (spamRecords cfgW chainW 3).length ∧
    (((spamRecords cfgW chainW 3).get ⟨0, by decide⟩).maxFee
        = 2 * (chainW 0).baseFeePerGas + (chainW 0).maxPriorityFee ∧
     ((spamRecords cfgW chainW 3).get ⟨0, by decide⟩).txs.map
          (fun s => s.tx.maxFeePerGas)
        = List.replicate (((spamRecords cfgW chainW 3).get ⟨0, by decide⟩).txs.length)
            (2 * (chainW 0).baseFeePerGas + (chainW 0).maxPriorityFee) ∧
     ((spamRecords cfgW chainW 3).get ⟨0, by decide⟩).txs.map
          (fun s => s.tx.maxPriorityFeePerGas)
        = List.replicate (((spamRecords cfgW chainW 3).get ⟨0, by decide⟩).txs.length)
            (chainW 0).maxPriorityFee ∧
     (∀ (ch : ChainView) (nonce : Nat),
        (send_transaction cfgW ch nonce).1.maxFeePerGas
            = 2 * ch.baseFeePerGas + ch.maxPriorityFee ∧
        (send_transaction cfgW ch nonce).1.maxPriorityFeePerGas
            = ch.maxPriorityFee)) :=
  ⟨by decide, by decide, c2_fee_formula cfgW chainW 3 0 (by decide) (by decide)⟩

theorem c3_estimation_fallback_witness :
    1 ≤ cfgW.argBatchSize ∧ (1 : Nat) ≤ 1 ∧ (chainNoEst 0).estimateGas = none ∧
    (runGasLimit (chainNoEst 0).estimateGas = 40000 ∧
     (spam_transactions cfgW signOk chainNoEst 1).2.2 = false ∧
     spamRecords cfgW chainNoEst 1 ≠ []) :=
  ⟨by decide, by decide, by decide,
   (c3_estimation_fallback cfgW chainNoEst 1 (by decide) (by decide) (by decide)).1,
   (c3_estimation_fallback cfgW chainNoEst 1 (by decide) (by decide) (by decide)).2.1,
   (c3_estimation_fallback cfgW chainNoEst 1 (by decide) (by decide) (by decide)).2.2.1⟩

theorem c5_fee_quote_per_batch_witness :
    1 ≤ cfg1.argBatchSize ∧ 1 < (spamRecords cfg1 chainShift 2).length ∧
    (((spamRecords cfg1 chainShift 2).get ⟨1, by decide⟩).baseFee
        = (chainShift 1).baseFeePerGas ∧
     ((spamRecords cfg1 chainShift 2).get ⟨1, by decide⟩).prio
        = (chainShift 1).maxPriorityFee ∧
     ((spamRecords cfg1 chainShift 2).get ⟨1, by decide⟩).maxFee
        = (chainShift 1).baseFeePerGas * 2 + (chainShift 1).maxPriorityFee ∧
     ((spamRecords cfg1 chainShift 2).get ⟨1, by decide⟩).gasLimit
        = runGasLimit (chainShift 0).estimateGas ∧
     ((spamRecords cfg1 chainShift 2).get ⟨1, by decide⟩).calls.count
        RpcCall.getBlockLatest = 1 ∧
     ((spamRecords cfg1 chainShift 2).get ⟨1, by decide⟩).calls.count
        RpcCall.maxPriorityFee = 1 ∧
     ((spamRecords cfg1 chainShift 2).get ⟨1, by decide⟩).calls.count
        RpcCall.estimateGas = 0) :=
  ⟨by decide, by decide, c5_fee_quote_per_batch cfg1 chainShift 2 1 (by decide) (by decide)⟩

theorem c6_dispatcher_witness :
    1 ≤ cfgW.argBatchSize ∧ 0 < (spamRecords cfgW chainW 2).length ∧
    (((spamRecords cfgW chainW 2).get ⟨0, by decide⟩).results
        = ((spamRecords cfgW chainW 2).get ⟨0, by decide⟩).txs.map (chainW 0).send ∧
     ((spamRecords cfgW chainW 2).get ⟨0, by decide⟩).results.length
        = ((spamRecords cfgW chainW 2).get ⟨0, by decide⟩).txs.length ∧
     ((spamRecords cfgW chainW 2).get ⟨0, by decide⟩).maxWorkers
        = ((spamRecords cfgW chainW 2).get ⟨0, by decide⟩).txs.length) :=
  ⟨by decide, by decide, c6_dispatcher cfgW chainW 2 0 (by decide) (by decide)⟩

theorem c9_batch_builder_witness :
    1 ≤ cfgW.argBatchSize ∧ 0 < (spamRecords cfgW chainW 2).length ∧
    (0 : Nat) < 1 ∧ runBatch cfgW signFail (chainW 0) 0 (min 1 (1 - 0)) = none ∧
    (((spamRecords cfgW chainW 2).get ⟨0, by decide⟩).txs.length
        = min cfgW.argBatchSize
            (2 - (((spamRecords cfgW chainW 2).take 0).map fun r => r.txs.length).sum) ∧
     ((spamRecords cfgW chainW 2).get ⟨0, by decide⟩).results
        = ((spamRecords cfgW chainW 2).get ⟨0, by decide⟩).txs.map (chainW 0).send) ∧
    spamLoopAux cfgW signFail chainW 0 1 1 (0 + 1) 0 0 = ([], [], true) :=
  ⟨by decide, by decide, by decide, by decide,
   (c9_batch_builder cfgW chainW 2 (by decide)).1 0 (by decide),
   (c9_batch_builder cfgW chainW 2 (by decide)).2 signFail 0 1 1 0 0 0 (by decide)
     (by decide)⟩

theorem c10_loop_accounting_witness :
    1 ≤ cfgW.argBatchSize ∧
    ((batchSizesOf (spamSteps cfgW chainW 3)).sum = 3 ∧
     (spamSteps cfgW chainW 3).getLast? ≠ some Step.sleep ∧
     (spamSteps cfgW chainW 3).count Step.sleep + 1
        = (spamRecords cfgW chainW 3).length + (if 3 = 0 then 1 else 0) ∧
     spamLoopAux cfgW signOk chainW (runGasLimit (chainW 0).estimateGas)
          (min cfgW.argBatchSize 3) 3 5 0 0
        = spamLoopAux cfgW signOk chainW (runGasLimit (chainW 0).estimateGas)
            (min cfgW.argBatchSize 3) 3 3 0 0) :=
  ⟨by decide, (c10_loop_accounting cfgW chainW 3 (by decide)).1,
   (c10_loop_accounting cfgW chainW 3 (by decide)).2.2.1,
   (c10_loop_accounting cfgW chainW 3 (by decide)).2.2.2.1,
   (c10_loop_accounting cfgW chainW 3 (by decide)).2.2.2.2 5 (by decide)⟩
